import Mathlib

/-!
Verification development for the BankingNewsletter repository: a set of
Python scripts (ABS_downloader.py, RBA_downloader.py, APRA_downloader.py,
NSW_Revenue_downloader.py, run-all-script.py) that scrape government
statistics pages and download spreadsheet files.

The Python operations are shallowly embedded: strings are Lean `String`
(reasoned about through their character lists), Python `str` operations
(`in`, `endswith`, `startswith`, `split`, `strip`, `lower`,
`urllib.parse.unquote`) are modelled as executable Lean functions over
character lists, parsed HTML pages are a rose tree mirroring the
BeautifulSoup node structure, and the network is an oracle assigning an
outcome (a response or a raised requests exception) to each GET attempt.
-/

/-! ## String primitives (models of the Python str operations) -/

/-- Model of Python list/str prefix testing: `prefEq p l` is true iff
`p` is a prefix of `l`. -/
def prefEq : List Char → List Char → Bool
  | [], _ => true
  | _ :: _, [] => false
  | a :: p, b :: l => a == b && prefEq p l

/-- Model of Python substring containment (`needle in hay` on `str`):
true iff `p` occurs contiguously inside `l`. -/
def infixB (p : List Char) : List Char → Bool
  | [] => p.isEmpty
  | c :: t => prefEq p (c :: t) || infixB p t

/-- Python `needle in hay` on strings. -/
def containsSub (hay needle : String) : Bool := infixB needle.toList hay.toList

/-- Model of Python `str.endswith(p)`: the last `p.length` characters of
`l` equal `p` (false when `l` is shorter than `p`). -/
def suffEq (p l : List Char) : Bool := p == l.drop (l.length - p.length)

/-- Python `s.endswith(p)`. -/
def endswith (s p : String) : Bool := suffEq p.toList s.toList

/-- Python `s.startswith(p)`. -/
def startswith (s p : String) : Bool := prefEq p.toList s.toList

/-- Model of Python `s.split(sep)` for a single-character separator:
splits on every occurrence, keeping empty pieces (Python semantics for an
explicit separator). -/
def splitListOn (sep : Char) : List Char → List (List Char)
  | [] => [[]]
  | c :: t =>
    if c == sep then [] :: splitListOn sep t
    else
      match splitListOn sep t with
      | [] => [[c]]
      | h :: r => (c :: h) :: r

/-- Python `s.split(sep)` (single-character separator), on `String`. -/
def pySplit (s : String) (sep : Char) : List String :=
  (splitListOn sep s.toList).map String.mk

/-- ASCII lower-casing of one character (models Python `str.lower` on the
ASCII range, which is all the scripts ever test against). -/
def charLower (c : Char) : Char :=
  if 65 ≤ c.toNat ∧ c.toNat ≤ 90 then Char.ofNat (c.toNat + 32) else c

/-- Python `s.lower()` restricted to ASCII case mapping. -/
def lowerStr (s : String) : String := String.mk (s.toList.map charLower)

/-- ASCII whitespace test (models the characters Python `str.strip`
removes, restricted to the ASCII range). -/
def isSpaceChar (c : Char) : Bool :=
  c == ' ' || c == '\t' || c == '\n' || c == '\r'

/-- Python `s.strip()`: remove leading and trailing whitespace. -/
def pyStrip (s : String) : String :=
  String.mk (((s.toList.dropWhile isSpaceChar).reverse.dropWhile isSpaceChar).reverse)

/-- Value of a hexadecimal digit, accepting both cases (as Python
`urllib.parse.unquote` does). -/
def hexVal (c : Char) : Option Nat :=
  let n := c.toNat
  if 48 ≤ n ∧ n ≤ 57 then some (n - 48)
  else if 65 ≤ n ∧ n ≤ 70 then some (n - 55)
  else if 97 ≤ n ∧ n ≤ 102 then some (n - 87)
  else none

/-- Percent-decoding of a character list: each `%XX` escape with two hex
digits becomes the character with that code, malformed escapes are left
verbatim. This models `urllib.parse.unquote` on ASCII escapes (the only
escapes the scraped URLs contain). -/
def unquoteAux : List Char → List Char
  | '%' :: a :: b :: rest =>
    match hexVal a, hexVal b with
    | some x, some y => Char.ofNat (16 * x + y) :: unquoteAux rest
    | _, _ => '%' :: unquoteAux (a :: b :: rest)
  | c :: rest => c :: unquoteAux rest
  | [] => []

/-- Python `urllib.parse.unquote` (ASCII escapes). -/
def pyUnquote (s : String) : String := String.mk (unquoteAux s.toList)

/-! ## Basic lemmas about the string primitives -/

theorem prefEq_iff (p : List Char) : ∀ l, prefEq p l = true ↔ ∃ t, l = p ++ t := by
  induction p with
  | nil => intro l; simp [prefEq]
  | cons a p ih =>
    intro l
    cases l with
    | nil => simp [prefEq]
    | cons b l =>
      simp only [prefEq, Bool.and_eq_true, beq_iff_eq, ih]
      constructor
      · rintro ⟨rfl, t, rfl⟩; exact ⟨t, rfl⟩
      · rintro ⟨t, h⟩
        injection h with h1 h2
        exact ⟨h1.symm, t, h2⟩

theorem infixB_iff (p : List Char) : ∀ l, infixB p l = true ↔ ∃ s t, l = s ++ p ++ t := by
  intro l
  induction l with
  | nil =>
    simp only [infixB, List.isEmpty_iff]
    constructor
    · rintro rfl; exact ⟨[], [], rfl⟩
    · rintro ⟨s, t, h⟩
      rcases List.append_eq_nil.mp h.symm with ⟨h1, h2⟩
      exact (List.append_eq_nil.mp h1).2
  | cons c l ih =>
    simp only [infixB, Bool.or_eq_true, prefEq_iff, ih]
    constructor
    · rintro (⟨t, h⟩ | ⟨s, t, h⟩)
      · exact ⟨[], t, by simp [h]⟩
      · exact ⟨c :: s, t, by simp [h]⟩
    · rintro ⟨s, t, h⟩
      cases s with
      | nil => exact Or.inl ⟨t, by simpa using h⟩
      | cons c' s =>
        injection h with h1 h2
        exact Or.inr ⟨s, t, h2⟩

theorem infixB_trans {p q l : List Char} (hpq : infixB p q = true)
    (hql : infixB q l = true) : infixB p l = true := by
  rw [infixB_iff] at *
  obtain ⟨s1, t1, rfl⟩ := hpq
  obtain ⟨s2, t2, rfl⟩ := hql
  exact ⟨s2 ++ s1, t1 ++ t2, by simp⟩

theorem suffEq_iff (p l : List Char) :
    suffEq p l = true ↔ p = l.drop (l.length - p.length) := by
  simp [suffEq]

theorem suffEq_length_le {p l : List Char} (h : suffEq p l = true) :
    p.length ≤ l.length := by
  rw [suffEq_iff] at h
  by_contra hlt
  push_neg at hlt
  have h0 : l.length - p.length = 0 := by omega
  rw [h0, List.drop_zero] at h
  exact absurd (congrArg List.length h) (by omega)

theorem suffEq_of_suffEq_le {p q l : List Char} (hp : suffEq p l = true)
    (hq : suffEq q l = true) (hle : q.length ≤ p.length) :
    q = p.drop (p.length - q.length) := by
  have hpl := suffEq_length_le hp
  have hql := suffEq_length_le hq
  rw [suffEq_iff] at hp hq
  have hdrop : l.length - q.length = (l.length - p.length) + (p.length - q.length) := by
    omega
  calc q = l.drop (l.length - q.length) := hq
    _ = l.drop ((l.length - p.length) + (p.length - q.length)) := by rw [hdrop]
    _ = (l.drop (l.length - p.length)).drop (p.length - q.length) :=
        (List.drop_drop (p.length - q.length) (l.length - p.length) l).symm
    _ = p.drop (p.length - q.length) := by rw [← hp]

/-- A name ending in `.XLSX` passes neither of the lowercase extension
tests, and likewise for `.Xls`: Python `endswith` is case-sensitive. -/
theorem upper_not_lower (f : String) :
    (endswith f ".XLSX" = true ∨ endswith f ".Xls" = true) →
    endswith f ".xlsx" = false ∧ endswith f ".xls" = false := by
  intro h
  unfold endswith at *
  constructor
  · by_contra hx
    rw [Bool.not_eq_false] at hx
    rcases h with h | h
    · exact absurd (suffEq_of_suffEq_le h hx (by decide)) (by decide)
    · exact absurd (suffEq_of_suffEq_le hx h (by decide)) (by decide)
  · by_contra hx
    rw [Bool.not_eq_false] at hx
    rcases h with h | h
    · exact absurd (suffEq_of_suffEq_le h hx (by decide)) (by decide)
    · exact absurd (suffEq_of_suffEq_le h hx (by decide)) (by decide)

/-! ## Resilient fetcher (fetch_url / is_blocked)

The four scripts contain textually identical copies of `fetch_url` (and
RBA_downloader.py factors the block test into `is_blocked`); we embed the
shared logic once. `requests.get` is modelled by an oracle mapping each
attempt index to its outcome: either a response (status code and body
text) or a raised `requests.exceptions.RequestException`. The embedding
returns, besides the Python return value, the list of `time.sleep` waits
performed and the number of GET attempts made, so the retry/backoff
behaviour is observable. -/

/-- An HTTP response as the scripts observe it: status code and body. -/
structure Resp where
  status : Nat
  body : String
  deriving Repr, DecidableEq

/-- Outcome of one `requests.get` call: a response, or a raised
`RequestException` (connection failure, timeout). -/
inductive GetOutcome where
  | got (r : Resp)
  | raised
  deriving Repr, DecidableEq

/-- RBA_downloader.is_blocked: status in [403, 429, 503] or "captcha" in
response.text.lower(). ABS/APRA/NSW inline the same condition. -/
def is_blocked (r : Resp) : Bool :=
  ([403, 429, 503].contains r.status) || containsSub (lowerStr r.body) "captcha"

/-- Observable trace of one `fetch_url` call: the returned value (`none`
models Python `None`), the successive `time.sleep` durations, and the
number of `requests.get` attempts made. -/
structure FetchTrace where
  result : Option Resp
  waits : List Nat
  attempts : Nat
  deriving Repr, DecidableEq

/-- The retry loop of `fetch_url` (`for attempt in range(retries)`),
with the oracle index tracking the attempt number. A blocked response
sleeps `wait_time` and doubles it; a raised exception sleeps `wait_time`
without doubling (the `wait_time *= 2` line sits in the blocked branch
only); a non-blocked response is returned immediately. -/
def fetchLoop (oracle : Nat → GetOutcome) : Nat → Nat → Nat → FetchTrace
  | _, 0, _ => ⟨none, [], 0⟩
  | i, Nat.succ r, w =>
    match oracle i with
    | .got resp =>
      if is_blocked resp then
        let t := fetchLoop oracle (i + 1) r (w * 2)
        ⟨t.result, w :: t.waits, t.attempts + 1⟩
      else ⟨some resp, [], 1⟩
    | .raised =>
      let t := fetchLoop oracle (i + 1) r w
      ⟨t.result, w :: t.waits, t.attempts + 1⟩

/-- fetch_url(url, retries=3, wait_time=5), with the network abstracted
into `oracle`. After the loop exhausts `retries` attempts it returns
`None`. -/
def fetch_url (oracle : Nat → GetOutcome) (retries : Nat := 3) (wait_time : Nat := 5) :
    FetchTrace :=
  fetchLoop oracle 0 retries wait_time

/-- Spec-side blocked predicate, phrased as the spec words it: status
code in the set 403/429/503, or the body contains a case-insensitive
"captcha" marker. -/
def blockedSpec (r : Resp) : Bool :=
  (r.status == 403 || r.status == 429 || r.status == 503) ||
    containsSub (lowerStr r.body) "captcha"

/-- Spec-side description of `fetch_url`: the first non-blocked response
among the first `n` attempt outcomes, `none` when every attempt is
blocked or raises. -/
def firstUnblocked (oracle : Nat → GetOutcome) : Nat → Nat → Option Resp
  | _, 0 => none
  | i, Nat.succ n =>
    match oracle i with
    | .got r => if blockedSpec r then firstUnblocked oracle (i + 1) n else some r
    | .raised => firstUnblocked oracle (i + 1) n

/-- An attempt outcome that takes the blocked branch of the loop. -/
def outcomeBlocked : GetOutcome → Bool
  | .got r => is_blocked r
  | .raised => false

theorem is_blocked_eq_spec (r : Resp) : is_blocked r = blockedSpec r := by
  rcases r with ⟨s, b⟩
  simp only [is_blocked, blockedSpec]
  congr 1
  by_cases h1 : s = 403
  · simp [h1, List.contains, List.elem]
  · by_cases h2 : s = 429
    · simp [h2, List.contains, List.elem]
    · by_cases h3 : s = 503
      · simp [h3, List.contains, List.elem]
      · have e1 : (s == 403) = false := by simp [h1]
        have e2 : (s == 429) = false := by simp [h2]
        have e3 : (s == 503) = false := by simp [h3]
        simp [List.contains, List.elem, e1, e2, e3]

theorem fetchLoop_result_eq (oracle : Nat → GetOutcome) :
    ∀ n i w, (fetchLoop oracle i n w).result = firstUnblocked oracle i n := by
  intro n
  induction n with
  | zero => intro i w; rfl
  | succ n ih =>
    intro i w
    cases ho : oracle i with
    | got resp =>
      by_cases hb : is_blocked resp = true
      · have hbs : blockedSpec resp = true := by rw [← is_blocked_eq_spec]; exact hb
        simp only [fetchLoop, firstUnblocked, ho, hb, hbs, if_true]
        exact ih (i + 1) (w * 2)
      · have hb2 : is_blocked resp = false := by simpa using hb
        have hbs : blockedSpec resp = false := by rw [← is_blocked_eq_spec]; exact hb2
        simp [fetchLoop, firstUnblocked, ho, hb2, hbs]
    | raised =>
      simp only [fetchLoop, firstUnblocked, ho]
      exact ih (i + 1) w

theorem fetchLoop_attempts_le (oracle : Nat → GetOutcome) :
    ∀ n i w, (fetchLoop oracle i n w).attempts ≤ n := by
  intro n
  induction n with
  | zero => intro i w; exact Nat.le_refl 0
  | succ n ih =>
    intro i w
    cases ho : oracle i with
    | got resp =>
      by_cases hb : is_blocked resp = true
      · simp only [fetchLoop, ho, hb, if_true]
        exact Nat.succ_le_succ (ih (i + 1) (w * 2))
      · have hb2 : is_blocked resp = false := by simpa using hb
        simp [fetchLoop, ho, hb2]
    | raised =>
      simp only [fetchLoop, ho]
      exact Nat.succ_le_succ (ih (i + 1) w)

theorem waits_geom (w n : Nat) :
    w :: (List.range n).map (fun k => (w * 2) * 2 ^ k) =
      (List.range (n + 1)).map (fun k => w * 2 ^ k) := by
  rw [List.range_succ_eq_map, List.map_cons, List.map_map]
  congr 1
  · simp
  · have hf : ((fun k => w * 2 ^ k) ∘ Nat.succ) = fun k => (w * 2) * 2 ^ k := by
      funext k
      simp only [Function.comp_apply, pow_succ]
      ring
    rw [hf]

theorem fetchLoop_allBlocked (oracle : Nat → GetOutcome) :
    ∀ n i w, (∀ j, j < n → outcomeBlocked (oracle (i + j)) = true) →
    fetchLoop oracle i n w =
      ⟨none, (List.range n).map (fun k => w * 2 ^ k), n⟩ := by
  intro n
  induction n with
  | zero => intro i w _; rfl
  | succ n ih =>
    intro i w h
    have h0 : outcomeBlocked (oracle i) = true := by
      simpa using h 0 (Nat.succ_pos n)
    cases ho : oracle i with
    | got resp =>
      have hb : is_blocked resp = true := by rw [ho] at h0; exact h0
      have hrec := ih (i + 1) (w * 2) (by
        intro j hj
        have hj2 := h (j + 1) (Nat.succ_lt_succ hj)
        have harg : i + (j + 1) = i + 1 + j := by omega
        rw [harg] at hj2
        exact hj2)
      simp only [fetchLoop, ho, hb, if_true, hrec]
      rw [← waits_geom w n]
    | raised =>
      rw [ho] at h0
      exact absurd h0 (by simp [outcomeBlocked])

/-! ## Retrieval sink: filename derivation and ZIP extraction

download_file derives the local filename as
`urllib.parse.unquote(file_url.split("/")[-1].split("?")[0])` (identical
in all four scripts). extract_zip (ABS_downloader.py) iterates the
member names of a valid ZIP and extracts only those ending in ".xlsx" or
".xls"; `zipfile.ZipFile.extract` writes a member at
`os.path.join(extract_folder, member_name)`, preserving any directory
components inside the member name. A ZIP archive is modelled by its
member-name list, and an extraction by the list of written paths. -/

/-- The filename-derivation step of download_file:
`file_url.split("/")[-1].split("?")[0]` percent-decoded. -/
def download_file_name (file_url : String) : String :=
  pyUnquote ((pySplit ((pySplit file_url '/').getLastD "") '?').headD "")

/-- The call `download_file(file_url, save_folder)` as it behaves on its
first statement when `file_url` may be Python `None` (the value the ABS
resolvers return when no anchor matches): `None.split` raises
`AttributeError`; a string proceeds to the filename derivation. -/
def download_file_derive : Option String → Except String String
  | none => Except.error "AttributeError: NoneType object has no attribute split"
  | some u => Except.ok (download_file_name u)

/-- extract_zip member filtering: of the namelist of a valid ZIP, exactly
the members ending in ".xlsx" or ".xls" are extracted. -/
def extract_zip (members : List String) : List String :=
  members.filter (fun f => endswith f ".xlsx" || endswith f ".xls")

/-- The on-disk paths written by extract_zip: `zipfile.ZipFile.extract`
joins the member name (directory components included) onto the
destination folder. -/
def extractedPaths (extract_folder : String) (members : List String) : List String :=
  (extract_zip members).map (fun f => extract_folder ++ "/" ++ f)

/-- Final path segment of a member name (spec-side helper for the
"flattened" reading of extraction). -/
def basenameOf (f : String) : String := (pySplit f '/').getLastD ""

/-- Modelled from the spec words "extracted spreadsheet members
flattened into the same subfolder": every accepted member written
directly under the destination folder under its base name. -/
def flattenedPaths (extract_folder : String) (members : List String) : List String :=
  (extract_zip members).map (fun f => extract_folder ++ "/" ++ basenameOf f)

/-! ## Link resolvers over the anchor list

The ABS, APRA and NSW resolvers only ever look at
`soup.find_all("a", href=True)` — the page's anchors in document order,
each with an href and a visible text. They are embedded as functions of
that anchor list. (The RBA payments resolver also inspects the tree
structure and is embedded over a node tree further below.) -/

/-- An anchor element as the scripts use it: its href attribute and its
visible link text. -/
structure Anchor where
  href : String
  text : String
  deriving Repr, DecidableEq

/-- ABS target lending-indicator ZIP files (TARGET_ABS_FILES). -/
def TARGET_ABS_FILES : List (String × String) :=
  [("Housing-Finance-Total.zip", "Housing Finance Total"),
   ("Housing-Finance-Owner-occupiers.zip", "Housing Finance Owner-occupiers"),
   ("Housing-Finance-Investors.zip", "Housing Finance Investors"),
   ("Business-Finance.zip", "Business Finance"),
   ("Housing-Finance-First-home-buyers.zip", "Housing Finance First-home buyers")]

/-- RBA target interest-rate files (TARGET_INTEREST_FILES). -/
def TARGET_INTEREST_FILES : List (String × String) :=
  [("f01d.xlsx", "Interest Rates and Yields - Money Market - Daily - F1"),
   ("f01hist.xlsx", "Interest Rates and Yields - Money Market - Monthly - F1.1"),
   ("f06hist.xlsx", "Housing Lending Rates - F6")]

/-- ABS labour-force target token (LABOUR_FORCE_FILE_PREFIX in the
source; renamed here). -/
def LABOUR_FORCE_FILE_TOKEN : String := "6202001"

/-- `href.split("/")[-1].split("?")[0]`: filename extraction without
query parameters, as both exact-set resolvers perform it. -/
def stripQueryLastSeg (href : String) : String :=
  (pySplit ((pySplit href '/').getLastD "") '?').headD ""

/-- Python dict assignment `d[k] = v`: replace the value at an existing
key in place, else append the binding (insertion order preserved). -/
def dictInsert (k v : String) : List (String × String) → List (String × String)
  | [] => [(k, v)]
  | p :: d => if p.1 == k then (k, v) :: d else p :: dictInsert k v d

/-- Relative hrefs are absolutized against the site origin:
`href if href.startswith("http") else f"https://{site}{href}"`. -/
def absolutize (origin href : String) : String :=
  if startswith href "http" then href else origin ++ href

/-- The shared loop of get_abs_lending_files and get_rba_interest_files:
accept an anchor iff its stripped final segment is a key of the target
dict, storing `valid_files[file_name] = absolute url`. -/
def exactSetFold (targets : List (String × String)) (origin : String) :
    List Anchor → List (String × String) → List (String × String)
  | [], acc => acc
  | a :: rest, acc =>
    let fname := stripQueryLastSeg a.href
    if (targets.map Prod.fst).contains fname then
      exactSetFold targets origin rest (dictInsert fname (absolutize origin a.href) acc)
    else exactSetFold targets origin rest acc

/-- get_abs_lending_files (ABS_downloader.py): the five lending ZIPs by
exact filename match. -/
def get_abs_lending_files (anchors : List Anchor) : List (String × String) :=
  exactSetFold TARGET_ABS_FILES "https://www.abs.gov.au" anchors []

/-- get_rba_interest_files (RBA_downloader.py): the three interest-rate
files by exact filename match. -/
def get_rba_interest_files (anchors : List Anchor) : List (String × String) :=
  exactSetFold TARGET_INTEREST_FILES "https://www.rba.gov.au" anchors []

/-- get_abs_cpi_monthly_file: first anchor whose href contains
"Time-Series-Spreadsheets.zip". -/
def get_abs_cpi_monthly_file : List Anchor → Option String
  | [] => none
  | a :: rest =>
    if containsSub a.href "Time-Series-Spreadsheets.zip" then
      some (absolutize "https://www.abs.gov.au" a.href)
    else get_abs_cpi_monthly_file rest

/-- get_abs_cpi_quarterly_file: first anchor whose href contains
"All-Time-Series-Spreadsheets.zip" or "Time-series-spreadsheets-all.zip". -/
def get_abs_cpi_quarterly_file : List Anchor → Option String
  | [] => none
  | a :: rest =>
    if containsSub a.href "All-Time-Series-Spreadsheets.zip" ||
        containsSub a.href "Time-series-spreadsheets-all.zip" then
      some (absolutize "https://www.abs.gov.au" a.href)
    else get_abs_cpi_quarterly_file rest

/-- get_abs_labour_force_file: first anchor whose href contains the
numeric token and ends with ".xlsx". -/
def get_abs_labour_force_file : List Anchor → Option String
  | [] => none
  | a :: rest =>
    if containsSub a.href LABOUR_FORCE_FILE_TOKEN && endswith a.href ".xlsx" then
      some (absolutize "https://www.abs.gov.au" a.href)
    else get_abs_labour_force_file rest

/-- get_abs_retail_trade_file: first anchor whose href contains
"All-Time-Series-Spreadsheets.zip". -/
def get_abs_retail_trade_file : List Anchor → Option String
  | [] => none
  | a :: rest =>
    if containsSub a.href "All-Time-Series-Spreadsheets.zip" then
      some (absolutize "https://www.abs.gov.au" a.href)
    else get_abs_retail_trade_file rest

/-- get_apra_file (APRA_downloader.py): first anchor whose href ends in
".xlsx" and whose stripped, lower-cased text contains "back-series". -/
def get_apra_file : List Anchor → Option String
  | [] => none
  | a :: rest =>
    if endswith a.href ".xlsx" && containsSub (lowerStr (pyStrip a.text)) "back-series" then
      some (absolutize "https://www.apra.gov.au" a.href)
    else get_apra_file rest

/-- get_nsw_revenue_file (NSW_Revenue_downloader.py): first anchor whose
href contains the fixed target filename. -/
def get_nsw_revenue_file : List Anchor → Option String
  | [] => none
  | a :: rest =>
    if containsSub a.href "transfer-duty-land-related-dsd-001.xlsx" then
      some (absolutize "https://www.revenue.nsw.gov.au" a.href)
    else get_nsw_revenue_file rest

/-! ## The unguarded download calls in ABS_downloader.__main__

Lines 196, 199 and 202 of ABS_downloader.py pass the resolver result
straight into download_file with no None check (unlike the retail-trade
call just below them, and unlike the APRA/NSW/RBA mains, which all
guard). These steps model one such statement each. -/

/-- `download_file(get_abs_cpi_monthly_file(), ABS_FOLDER)`. -/
def abs_main_cpi_monthly_step (anchors : List Anchor) : Except String String :=
  download_file_derive (get_abs_cpi_monthly_file anchors)

/-- `download_file(get_abs_cpi_quarterly_file(), ABS_FOLDER)`. -/
def abs_main_cpi_quarterly_step (anchors : List Anchor) : Except String String :=
  download_file_derive (get_abs_cpi_quarterly_file anchors)

/-- `download_file(get_abs_labour_force_file(), ABS_FOLDER)`. -/
def abs_main_labour_force_step (anchors : List Anchor) : Except String String :=
  download_file_derive (get_abs_labour_force_file anchors)

/-! ## Parsed HTML pages and the RBA payments resolver

get_rba_payments_files (RBA_downloader.py) also inspects the tree
structure of the parsed page: it looks up the discontinued-section
heading with
`soup.find("p", string=lambda text: text and "Discontinued payments statistical tables" in text)`
and, for each anchor, breaks out of the loop when that paragraph occurs
in `link.find_parents()` (the anchor's chain of ancestors). The parsed
page is modelled as a rose tree of element and text nodes.

BeautifulSoup particulars mirrored here: `tag.string` is the unique
string descendant reached through single-child tags (None whenever a tag
has zero or several children); `find` and `find_all` traverse the tree
in document (preorder) order; bs4 tag equality (used by the Python `in`
membership test) is structural, comparing name, attributes and contents;
`link.find_parent()` is always truthy because every parsed tag has at
least the document object as parent. -/

/-- A node of the parsed page: an element with tag name, attributes and
children, or a text node. -/
inductive Node where
  | text (s : String)
  | elem (tag : String) (attrs : List (String × String)) (children : List Node)
  deriving Repr

mutual
/-- Structural equality of nodes (bs4 `Tag.__eq__` / `NavigableString.__eq__`). -/
def nodeBEq : Node → Node → Bool
  | .text s, .text t => s == t
  | .elem t1 a1 c1, .elem t2 a2 c2 => t1 == t2 && a1 == a2 && nodeListBEq c1 c2
  | _, _ => false

/-- Structural equality of node lists. -/
def nodeListBEq : List Node → List Node → Bool
  | [], [] => true
  | x :: xs, y :: ys => nodeBEq x y && nodeListBEq xs ys
  | _, _ => false
end

instance : BEq Node := ⟨nodeBEq⟩

/-- bs4 `tag.string`: the single string child, looked up through chains
of single-child tags; `none` when a node has zero or several children. -/
def Node.str : Node → Option String
  | .text s => some s
  | .elem _ _ [c] => Node.str c
  | .elem _ _ _ => none

/-- Attribute lookup on an element's attribute list. -/
def getAttr (attrs : List (String × String)) (k : String) : Option String :=
  (attrs.find? (fun p => p.1 == k)).map (·.2)

/-- The string-matcher passed to `soup.find`:
`lambda text: text and "Discontinued payments statistical tables" in text`
(None is falsy). -/
def discStrMatch : Option String → Bool
  | none => false
  | some s => containsSub s "Discontinued payments statistical tables"

mutual
/-- `soup.find("p", string=...)`: the first `p` element in document
order whose `.string` satisfies the matcher. -/
def findDisc : Node → Option Node
  | .text _ => none
  | .elem t a cs =>
    if t == "p" && discStrMatch (Node.str (.elem t a cs)) then some (.elem t a cs)
    else findDiscList cs

/-- `findDisc` over a child list, in order. -/
def findDiscList : List Node → Option Node
  | [] => none
  | c :: cs =>
    match findDisc c with
    | some d => some d
    | none => findDiscList cs
end

mutual
/-- `soup.find_all("a", href=True)` in document order, with each
anchor's `find_parents()` chain (innermost ancestor first): all `a`
elements carrying an href attribute. -/
def collectAnchors (anc : List Node) : Node → List (String × List Node)
  | .text _ => []
  | .elem t a cs =>
    (match getAttr a "href" with
     | some h => if t == "a" then [(h, anc)] else []
     | none => []) ++
    collectAnchorsList (Node.elem t a cs :: anc) cs

/-- `collectAnchors` over a child list, in order. -/
def collectAnchorsList (anc : List Node) : List Node → List (String × List Node)
  | [] => []
  | c :: cs => collectAnchors anc c ++ collectAnchorsList anc cs
end

/-- Python `discontinued_section in link.find_parents()` guarded by
`discontinued_section and link.find_parent()`: membership of the found
paragraph (when any) in the anchor's ancestor chain, by structural
equality. -/
def discInParents : Option Node → List Node → Bool
  | none, _ => false
  | some d, ancs => ancs.any (fun x => nodeBEq x d)

/-- The anchor loop of get_rba_payments_files: `break` when the
discontinued paragraph is among the anchor's parents, `continue` on an
"/xls-disc/" href, otherwise accept hrefs ending in ".xls" or ".xlsx",
absolutized against the RBA origin. -/
def rbaPaymentsLoop (disc : Option Node) : List (String × List Node) → List String
  | [] => []
  | (href, ancs) :: rest =>
    if discInParents disc ancs then []
    else if containsSub href "/xls-disc/" then rbaPaymentsLoop disc rest
    else if endswith href ".xls" || endswith href ".xlsx" then
      absolutize "https://www.rba.gov.au" href :: rbaPaymentsLoop disc rest
    else rbaPaymentsLoop disc rest

/-- get_rba_payments_files (RBA_downloader.py) on a fetched page. -/
def get_rba_payments_files (page : Node) : List String :=
  rbaPaymentsLoop (findDisc page) (collectAnchors [] page)

/-- The RBA payments page shape at issue for the discontinued-section
claim: the heading paragraph followed, as a later sibling, by an anchor
to a discontinued spreadsheet outside the "/xls-disc/" path. -/
def rbaDiscPage : Node :=
  .elem "body" []
    [.elem "p" [] [.text "Discontinued payments statistical tables"],
     .elem "a" [("href", "/statistics/tables/xls/old-series.xls")] [.text "Old series"]]

/-! ## Helper lemmas for the claim theorems -/

theorem strMk_toList (s : String) : String.mk s.toList = s := rfl

/-- A string with no separator occurrence splits into the single piece
consisting of the whole string. -/
theorem splitListOn_no_sep (sep : Char) :
    ∀ l : List Char, infixB [sep] l = false → splitListOn sep l = [l] := by
  intro l
  induction l with
  | nil => intro _; rfl
  | cons c t ih =>
    intro h
    simp only [infixB, prefEq, Bool.and_true, Bool.or_eq_false_iff] at h
    obtain ⟨h1, h2⟩ := h
    have hc : (c == sep) = false := by
      rcases Bool.eq_false_iff.mp h1 with _
      simp only [beq_eq_false_iff_ne] at h1 ⊢
      exact fun hcc => h1 (hcc ▸ rfl)
    simp only [splitListOn, hc, Bool.false_eq_true, if_false, ih h2]

/-- On a member name with no directory component, `basenameOf` is the
identity. -/
theorem basenameOf_no_slash (f : String) (h : containsSub f "/" = false) :
    basenameOf f = f := by
  unfold basenameOf pySplit
  have hs : splitListOn '/' f.toList = [f.toList] :=
    splitListOn_no_sep '/' f.toList (by simpa [containsSub] using h)
  rw [hs]
  simp [strMk_toList]

/-- Every URL get_rba_payments_files returns comes from some collected
anchor whose href passes the lowercase extension test. -/
theorem rbaPaymentsLoop_sound (disc : Option Node) :
    ∀ links u, u ∈ rbaPaymentsLoop disc links →
    ∃ pr ∈ links, u = absolutize "https://www.rba.gov.au" pr.1 ∧
      (endswith pr.1 ".xls" || endswith pr.1 ".xlsx") = true := by
  intro links
  induction links with
  | nil => intro u hu; simp [rbaPaymentsLoop] at hu
  | cons p rest ih =>
    rcases p with ⟨href, ancs⟩
    intro u hu
    simp only [rbaPaymentsLoop] at hu
    by_cases hd : discInParents disc ancs = true
    · simp [hd] at hu
    · have hd2 : discInParents disc ancs = false := by simpa using hd
      rw [hd2] at hu
      simp only [Bool.false_eq_true, if_false] at hu
      by_cases hx : containsSub href "/xls-disc/" = true
      · simp only [hx, if_true] at hu
        obtain ⟨pr, hpr, he⟩ := ih u hu
        exact ⟨pr, List.mem_cons_of_mem _ hpr, he⟩
      · have hx2 : containsSub href "/xls-disc/" = false := by simpa using hx
        rw [hx2] at hu
        simp only [Bool.false_eq_true, if_false] at hu
        by_cases hext : (endswith href ".xls" || endswith href ".xlsx") = true
        · rw [hext] at hu
          simp only [if_true, List.mem_cons] at hu
          rcases hu with rfl | hu
          · exact ⟨(href, ancs), List.mem_cons_self _ _, rfl, hext⟩
          · obtain ⟨pr, hpr, he⟩ := ih u hu
            exact ⟨pr, List.mem_cons_of_mem _ hpr, he⟩
        · have hext2 : (endswith href ".xls" || endswith href ".xlsx") = false := by
            simpa using hext
          rw [hext2] at hu
          simp only [Bool.false_eq_true, if_false] at hu
          obtain ⟨pr, hpr, he⟩ := ih u hu
          exact ⟨pr, List.mem_cons_of_mem _ hpr, he⟩

/-- Key membership after a Python dict assignment. -/
theorem dictInsert_hasKey (k v k2 : String) :
    ∀ d, ((dictInsert k v d).any (fun p => p.1 == k2) = true) ↔
      (k2 = k ∨ d.any (fun p => p.1 == k2) = true) := by
  intro d
  induction d with
  | nil =>
    constructor
    · intro h
      simp only [dictInsert, List.any_cons, List.any_nil, Bool.or_false, beq_iff_eq] at h
      exact Or.inl h.symm
    · rintro (rfl | h)
      · simp [dictInsert]
      · exact absurd h (by simp)
  | cons p d ih =>
    by_cases hp : p.1 == k
    · simp only [dictInsert, hp, if_true, List.any_cons]
      constructor
      · intro h
        rcases Bool.or_eq_true _ _ |>.mp h with h | h
        · exact Or.inl (beq_iff_eq.mp h).symm
        · exact Or.inr (by simp [h])
      · intro h
        rcases h with rfl | h
        · simp
        · rcases Bool.or_eq_true _ _ |>.mp h with h | h
          · have : p.1 = k := by simpa using hp
            have : (k == k2) = true := by
              simp only [beq_iff_eq] at h ⊢
              rw [← this]; exact h
            simp [this]
          · simp [h]
    · simp only [dictInsert, hp, Bool.false_eq_true, if_false, List.any_cons,
        Bool.or_eq_true, ih]
      tauto
  
/-- Every binding after a Python dict assignment is the new one or an
old one. -/
theorem dictInsert_mem (k v : String) :
    ∀ d p, p ∈ dictInsert k v d → p = (k, v) ∨ p ∈ d := by
  intro d
  induction d with
  | nil => intro p hp; simpa [dictInsert] using hp
  | cons q d ih =>
    intro p hp
    by_cases hq : q.1 == k
    · simp only [dictInsert, hq, if_true, List.mem_cons] at hp
      rcases hp with rfl | hp
      · exact Or.inl rfl
      · exact Or.inr (List.mem_cons_of_mem _ hp)
    · simp only [dictInsert, hq, Bool.false_eq_true, if_false, List.mem_cons] at hp
      rcases hp with rfl | hp
      · exact Or.inr (List.mem_cons_self _ _)
      · rcases ih p hp with h | h
        · exact Or.inl h
        · exact Or.inr (List.mem_cons_of_mem _ h)

/-- Key membership in the result of the exact-set loop: a key is present
iff it was already in the accumulator or some anchor's stripped final
segment equals it and it is a target filename. -/
theorem exactSetFold_hasKey (targets : List (String × String)) (origin : String) :
    ∀ anchors acc fname,
      ((exactSetFold targets origin anchors acc).any (fun p => p.1 == fname) = true) ↔
      (acc.any (fun p => p.1 == fname) = true ∨
        ((targets.map Prod.fst).contains fname = true ∧
          ∃ a ∈ anchors, stripQueryLastSeg a.href = fname)) := by
  intro anchors
  induction anchors with
  | nil => intro acc fname; simp [exactSetFold]
  | cons a rest ih =>
    intro acc fname
    by_cases hm : (targets.map Prod.fst).contains (stripQueryLastSeg a.href) = true
    · simp only [exactSetFold, hm, if_true, ih, dictInsert_hasKey]
      constructor
      · rintro ((rfl | h) | ⟨ht, b, hb, he⟩)
        · exact Or.inr ⟨hm, a, List.mem_cons_self _ _, rfl⟩
        · exact Or.inl h
        · exact Or.inr ⟨ht, b, List.mem_cons_of_mem _ hb, he⟩
      · rintro (h | ⟨ht, b, hb, he⟩)
        · exact Or.inl (Or.inr h)
        · rcases List.mem_cons.mp hb with rfl | hb
          · exact Or.inl (Or.inl he.symm)
          · exact Or.inr ⟨ht, b, hb, he⟩
    · have hm2 : (targets.map Prod.fst).contains (stripQueryLastSeg a.href) = false := by
        simpa using hm
      simp only [exactSetFold, hm2, Bool.false_eq_true, if_false, ih]
      constructor
      · rintro (h | ⟨ht, b, hb, he⟩)
        · exact Or.inl h
        · exact Or.inr ⟨ht, b, List.mem_cons_of_mem _ hb, he⟩
      · rintro (h | ⟨ht, b, hb, he⟩)
        · exact Or.inl h
        · rcases List.mem_cons.mp hb with rfl | hb
          · rw [he] at hm2
            rw [hm2] at ht
            exact absurd ht (by simp)
          · exact Or.inr ⟨ht, b, hb, he⟩

/-- Soundness of the exact-set loop bindings: every binding in the
result was in the accumulator or is keyed by the stripped final segment
of some anchor, with the absolutized href as value. -/
theorem exactSetFold_mem (targets : List (String × String)) (origin : String) :
    ∀ anchors acc p, p ∈ exactSetFold targets origin anchors acc →
      p ∈ acc ∨
      ((targets.map Prod.fst).contains p.1 = true ∧
        ∃ a ∈ anchors, stripQueryLastSeg a.href = p.1 ∧
          p.2 = absolutize origin a.href) := by
  intro anchors
  induction anchors with
  | nil => intro acc p hp; exact Or.inl hp
  | cons a rest ih =>
    intro acc p hp
    by_cases hm : (targets.map Prod.fst).contains (stripQueryLastSeg a.href) = true
    · rw [exactSetFold, if_pos hm] at hp
      rcases ih _ p hp with h | ⟨ht, b, hb, he, hv⟩
      · rcases dictInsert_mem _ _ _ _ h with rfl | h
        · exact Or.inr ⟨hm, a, List.mem_cons_self _ _, rfl, rfl⟩
        · exact Or.inl h
      · exact Or.inr ⟨ht, b, List.mem_cons_of_mem _ hb, he, hv⟩
    · rw [exactSetFold, if_neg hm] at hp
      rcases ih _ p hp with h | ⟨ht, b, hb, he, hv⟩
      · exact Or.inl h
      · exact Or.inr ⟨ht, b, List.mem_cons_of_mem _ hb, he, hv⟩

/-! ## Claim theorems -/

/-- C1: the claim states that every anchor lexically after the
discontinued-section heading is excluded from the RBA payments results
and that resolution stops at that heading. The code instead breaks only
when the found paragraph is an ancestor of the anchor
(`discontinued_section in link.find_parents()`); a sibling anchor
following the heading is not excluded. On a page whose heading paragraph
is followed by an anchor to `/statistics/tables/xls/old-series.xls`, the
paragraph is found, yet the anchor's URL is returned. -/
theorem c1_discontinued_section_not_enforced :
    findDisc rbaDiscPage =
      some (Node.elem "p" [] [Node.text "Discontinued payments statistical tables"])
    ∧ get_rba_payments_files rbaDiscPage =
      ["https://www.rba.gov.au/statistics/tables/xls/old-series.xls"] :=
  ⟨rfl, rfl⟩

/-- A page (anchor list) on which none of the ABS CPI/labour-force rules
match. -/
def absNoMatchPage : List Anchor := [⟨"/statistics/about.html", "About"⟩]

/-- C2: when a resolver matches zero anchors it does return an empty
result (None), but the ABS `__main__` then calls
`download_file(None, ABS_FOLDER)` unguarded, whose first statement
`file_url.split("/")` raises AttributeError instead of skipping the
download step — contradicting the claim that the caller skips and the
run continues. -/
theorem c2_no_match_aborts_run :
    get_abs_cpi_monthly_file absNoMatchPage = none
    ∧ get_abs_cpi_quarterly_file absNoMatchPage = none
    ∧ get_abs_labour_force_file absNoMatchPage = none
    ∧ abs_main_cpi_monthly_step absNoMatchPage =
        Except.error "AttributeError: NoneType object has no attribute split"
    ∧ abs_main_cpi_quarterly_step absNoMatchPage =
        Except.error "AttributeError: NoneType object has no attribute split"
    ∧ abs_main_labour_force_step absNoMatchPage =
        Except.error "AttributeError: NoneType object has no attribute split" :=
  ⟨rfl, rfl, rfl, rfl, rfl, rfl⟩

/-- C3 counterexample: two consecutive transport-level errors with
initial wait 5. The claim predicts the second wait to be
5 * 2^(2-1) = 10, but the exception branch never doubles `wait_time`,
so the second wait is 5. -/
theorem c3_counterexample :
    (fetch_url (fun _ => GetOutcome.raised) 2 5).waits = [5, 5]
    ∧ (fetch_url (fun _ => GetOutcome.raised) 2 5).waits.getD 1 0 ≠ 5 * 2 ^ (2 - 1) := by
  refine ⟨rfl, ?_⟩
  decide

/-- C3 (amended): the doubling applies only after blocked responses:
across N consecutive blocked responses the Nth wait is the initial wait
times 2^(N-1) (after a transport-level error the wait is slept but kept
unchanged), and for every oracle no more than `retries` GET attempts are
made. -/
theorem c3_amended_backoff :
    (∀ (oracle : Nat → GetOutcome) (retries w : Nat),
        (∀ j, j < retries → outcomeBlocked (oracle j) = true) →
        (fetch_url oracle retries w).waits =
          (List.range retries).map (fun k => w * 2 ^ k)
        ∧ (fetch_url oracle retries w).attempts = retries)
    ∧ (∀ (oracle : Nat → GetOutcome) (retries w : Nat),
        (fetch_url oracle retries w).attempts ≤ retries) := by
  constructor
  · intro oracle retries w h
    have hall := fetchLoop_allBlocked oracle retries 0 w (by
      intro j hj
      rw [Nat.zero_add]
      exact h j hj)
    unfold fetch_url
    rw [hall]
    exact ⟨rfl, rfl⟩
  · intro oracle retries w
    exact fetchLoop_attempts_le oracle retries 0 w

/-- C3 witness: three blocked 503 responses with initial wait 5 produce
exactly the waits 5 * 2^k for k < 3, and three attempts. -/
theorem c3_amended_backoff_witness :
    (fetch_url (fun _ => GetOutcome.got ⟨503, "Service Unavailable"⟩) 3 5).waits =
      (List.range 3).map (fun k => 5 * 2 ^ k)
    ∧ (fetch_url (fun _ => GetOutcome.got ⟨503, "Service Unavailable"⟩) 3 5).attempts = 3 :=
  c3_amended_backoff.1 (fun _ => GetOutcome.got ⟨503, "Service Unavailable"⟩) 3 5
    (by
      intro j hj
      show outcomeBlocked (GetOutcome.got ⟨503, "Service Unavailable"⟩) = true
      decide)

/-- C4 counterexample: a ZIP member with a directory component is
extracted to its archive-internal path under the destination folder,
not flattened to its base name, because `zipfile.ZipFile.extract`
preserves member paths. -/
theorem c4_counterexample :
    extractedPaths "dest" ["docs/data.xlsx"] = ["dest/docs/data.xlsx"]
    ∧ flattenedPaths "dest" ["docs/data.xlsx"] = ["dest/data.xlsx"]
    ∧ extractedPaths "dest" ["docs/data.xlsx"] ≠ flattenedPaths "dest" ["docs/data.xlsx"] := by
  refine ⟨rfl, rfl, ?_⟩
  decide

/-- C4 (amended): extract_zip extracts exactly the members ending in
".xlsx" or ".xls" and discards every other member (so the
data.xlsx / readme.txt / data_old.xls example yields exactly data.xlsx
and data_old.xls); each extracted member is written at its
archive-internal path under the destination folder, which coincides with
flattening exactly when members carry no directory component. -/
theorem c4_amended_extraction :
    extract_zip ["data.xlsx", "readme.txt", "data_old.xls"] = ["data.xlsx", "data_old.xls"]
    ∧ (∀ (members : List String) (f : String),
        f ∈ extract_zip members ↔
          f ∈ members ∧ (endswith f ".xlsx" || endswith f ".xls") = true)
    ∧ (∀ (folder : String) (members : List String),
        (∀ f ∈ members, containsSub f "/" = false) →
        extractedPaths folder members = flattenedPaths folder members) := by
  refine ⟨rfl, ?_, ?_⟩
  · intro members f
    simp [extract_zip, List.mem_filter]
  · intro folder members h
    unfold extractedPaths flattenedPaths
    apply List.map_congr_left
    intro f hf
    have hm : f ∈ members := by
      have hf2 : f ∈ members.filter (fun g => endswith g ".xlsx" || endswith g ".xls") := by
        simpa [extract_zip] using hf
      exact (List.mem_filter.mp hf2).1
    rw [basenameOf_no_slash f (h f hm)]

/-- C4 witness: on the example archive, whose members are all at the
archive root, the written paths agree with the flattened reading. -/
theorem c4_amended_extraction_witness :
    extractedPaths "dest" ["data.xlsx", "readme.txt", "data_old.xls"] =
      flattenedPaths "dest" ["data.xlsx", "readme.txt", "data_old.xls"] :=
  c4_amended_extraction.2.2 "dest" ["data.xlsx", "readme.txt", "data_old.xls"] (by decide)

/-- C5: the block predicate is exactly "status in 403/429/503 or
case-insensitive captcha marker in the body", and fetch_url returns the
first non-blocked response of its at most `retries` attempts — `none`
when every attempt is blocked or raises. -/
theorem c5_returns_first_unblocked :
    (∀ r : Resp, is_blocked r = blockedSpec r)
    ∧ ∀ (oracle : Nat → GetOutcome) (retries w : Nat),
        (fetch_url oracle retries w).result = firstUnblocked oracle 0 retries :=
  ⟨is_blocked_eq_spec, fun oracle retries w => fetchLoop_result_eq oracle retries 0 w⟩

/-- Final path segment of a URL string: the last "/"-separated piece
(spec-side helper). -/
def finalPathSegment (url : String) : String := (pySplit url '/').getLastD ""

/-- Query-string stripping: the part before the first "?" (spec-side
helper). -/
def stripQueryStr (s : String) : String := (pySplit s '?').headD ""

/-- C6: download_file derives the local filename by taking the final
path segment, stripping the query string, then percent-decoding; the
query-suffixed ZIP URL yields the bare ZIP name and a %20 escape decodes
to a literal space. -/
theorem c6_filename_derivation :
    download_file_name
        "https://www.abs.gov.au/statistics/economy/Time-Series-Spreadsheets.zip?abc=1" =
      "Time-Series-Spreadsheets.zip"
    ∧ download_file_name "https://www.abs.gov.au/files/My%20Data.xlsx" = "My Data.xlsx"
    ∧ ∀ url, download_file_name url = pyUnquote (stripQueryStr (finalPathSegment url)) :=
  ⟨rfl, rfl, fun _ => rfl⟩

/-- C7: in both exact-set resolvers a filename key is present in the
result iff it is a target filename and some anchor's href has it as its
stripped final path segment; and every returned binding is keyed by the
stripped final segment of a matching anchor with that anchor's
absolutized href as value. -/
theorem c7_exact_set_resolvers :
    ∀ (anchors : List Anchor) (fname : String),
      (((get_abs_lending_files anchors).any (fun p => p.1 == fname) = true) ↔
        ((TARGET_ABS_FILES.map Prod.fst).contains fname = true ∧
          ∃ a ∈ anchors, stripQueryLastSeg a.href = fname))
      ∧ (((get_rba_interest_files anchors).any (fun p => p.1 == fname) = true) ↔
        ((TARGET_INTEREST_FILES.map Prod.fst).contains fname = true ∧
          ∃ a ∈ anchors, stripQueryLastSeg a.href = fname))
      ∧ (∀ p ∈ get_abs_lending_files anchors,
          (TARGET_ABS_FILES.map Prod.fst).contains p.1 = true ∧
          ∃ a ∈ anchors, stripQueryLastSeg a.href = p.1 ∧
            p.2 = absolutize "https://www.abs.gov.au" a.href)
      ∧ (∀ p ∈ get_rba_interest_files anchors,
          (TARGET_INTEREST_FILES.map Prod.fst).contains p.1 = true ∧
          ∃ a ∈ anchors, stripQueryLastSeg a.href = p.1 ∧
            p.2 = absolutize "https://www.rba.gov.au" a.href) := by
  intro anchors fname
  refine ⟨?_, ?_, ?_, ?_⟩
  · have h := exactSetFold_hasKey TARGET_ABS_FILES "https://www.abs.gov.au" anchors [] fname
    simpa [get_abs_lending_files] using h
  · have h := exactSetFold_hasKey TARGET_INTEREST_FILES "https://www.rba.gov.au" anchors [] fname
    simpa [get_rba_interest_files] using h
  · intro p hp
    rcases exactSetFold_mem TARGET_ABS_FILES "https://www.abs.gov.au" anchors [] p
      (by simpa [get_abs_lending_files] using hp) with h | h
    · exact absurd h (List.not_mem_nil p)
    · exact h
  · intro p hp
    rcases exactSetFold_mem TARGET_INTEREST_FILES "https://www.rba.gov.au" anchors [] p
      (by simpa [get_rba_interest_files] using hp) with h | h
    · exact absurd h (List.not_mem_nil p)
    · exact h

/-- C7 witness: a relative f01d.xlsx anchor produces a binding keyed
"f01d.xlsx" in the RBA interest result. -/
theorem c7_exact_set_resolvers_witness :
    (get_rba_interest_files [⟨"/statistics/tables/xls/f01d.xlsx", "F1"⟩]).any
      (fun p => p.1 == "f01d.xlsx") = true :=
  ((c7_exact_set_resolvers [⟨"/statistics/tables/xls/f01d.xlsx", "F1"⟩] "f01d.xlsx").2.1).mpr
    ⟨by decide, ⟨"/statistics/tables/xls/f01d.xlsx", "F1"⟩, by decide, by decide⟩

/-- C8: the resolvers are pure functions of the fetched page content:
resolving the same anchors (respectively the same parsed page) twice
yields identical results. -/
theorem c8_resolver_idempotent :
    ∀ (anchors : List Anchor) (page : Node),
      get_abs_cpi_monthly_file anchors = get_abs_cpi_monthly_file anchors
      ∧ get_rba_payments_files page = get_rba_payments_files page :=
  fun _ _ => ⟨rfl, rfl⟩

/-- C9: every href containing the quarterly target filename
"All-Time-Series-Spreadsheets.zip" also contains the monthly search
substring "Time-Series-Spreadsheets.zip", so the monthly resolver
matches quarterly links; on a page where the quarterly link precedes the
monthly one, the monthly resolver returns the quarterly URL. -/
theorem c9_monthly_matches_quarterly :
    (∀ href : String, containsSub href "All-Time-Series-Spreadsheets.zip" = true →
      containsSub href "Time-Series-Spreadsheets.zip" = true)
    ∧ get_abs_cpi_monthly_file
        [⟨"/q/All-Time-Series-Spreadsheets.zip", "Quarterly"⟩,
         ⟨"/m/Time-Series-Spreadsheets.zip", "Monthly"⟩] =
      some "https://www.abs.gov.au/q/All-Time-Series-Spreadsheets.zip" := by
  constructor
  · intro href h
    unfold containsSub at *
    exact infixB_trans (by decide) h
  · rfl

/-- C9 witness: a concrete quarterly URL also matched by the monthly
substring rule. -/
theorem c9_monthly_matches_quarterly_witness :
    containsSub "https://www.abs.gov.au/q/All-Time-Series-Spreadsheets.zip"
      "Time-Series-Spreadsheets.zip" = true :=
  c9_monthly_matches_quarterly.1 "https://www.abs.gov.au/q/All-Time-Series-Spreadsheets.zip"
    (by decide)

/-- C10: extension matching is case-sensitive everywhere: a member or
href ending in ".XLSX" or ".Xls" is never extracted by extract_zip, and
the extension-based resolvers (RBA payments, ABS labour force, APRA)
never match such an href. -/
theorem c10_case_sensitive_extensions :
    (∀ (members : List String) (f : String),
        f ∈ members → (endswith f ".XLSX" = true ∨ endswith f ".Xls" = true) →
        f ∉ extract_zip members)
    ∧ (∀ page : Node,
        (∀ pr ∈ collectAnchors [] page,
          endswith pr.1 ".XLSX" = true ∨ endswith pr.1 ".Xls" = true) →
        get_rba_payments_files page = [])
    ∧ (∀ anchors : List Anchor,
        (∀ a ∈ anchors, endswith a.href ".XLSX" = true ∨ endswith a.href ".Xls" = true) →
        get_abs_labour_force_file anchors = none)
    ∧ (∀ anchors : List Anchor,
        (∀ a ∈ anchors, endswith a.href ".XLSX" = true ∨ endswith a.href ".Xls" = true) →
        get_apra_file anchors = none) := by
  refine ⟨?_, ?_, ?_, ?_⟩
  · intro members f hm hup hin
    have hf2 : f ∈ members.filter (fun g => endswith g ".xlsx" || endswith g ".xls") := by
      simpa [extract_zip] using hin
    have hext := (List.mem_filter.mp hf2).2
    obtain ⟨h1, h2⟩ := upper_not_lower f hup
    rw [h1, h2] at hext
    exact absurd hext (by simp)
  · intro page h
    apply List.eq_nil_iff_forall_not_mem.mpr
    intro u hu
    obtain ⟨pr, hpr, _, hext⟩ :=
      rbaPaymentsLoop_sound (findDisc page) (collectAnchors [] page) u hu
    obtain ⟨h1, h2⟩ := upper_not_lower pr.1 (h pr hpr)
    rw [h1, h2] at hext
    exact absurd hext (by simp)
  · intro anchors
    induction anchors with
    | nil => intro _; rfl
    | cons a rest ih =>
      intro h
      have h1 := (upper_not_lower a.href (h a (List.mem_cons_self _ _))).1
      simp only [get_abs_labour_force_file, h1, Bool.and_false, Bool.false_eq_true, if_false]
      exact ih (fun b hb => h b (List.mem_cons_of_mem _ hb))
  · intro anchors
    induction anchors with
    | nil => intro _; rfl
    | cons a rest ih =>
      intro h
      have h1 := (upper_not_lower a.href (h a (List.mem_cons_self _ _))).1
      simp only [get_apra_file, h1, Bool.false_and, Bool.false_eq_true, if_false]
      exact ih (fun b hb => h b (List.mem_cons_of_mem _ hb))

/-- C10 witness: an anchor whose href contains the labour-force token
but ends in uppercase ".XLSX" is not matched. -/
theorem c10_case_sensitive_extensions_witness :
    get_abs_labour_force_file [⟨"/stats/6202001.XLSX", "Labour force"⟩] = none :=
  c10_case_sensitive_extensions.2.2.1 [⟨"/stats/6202001.XLSX", "Labour force"⟩] (by decide)
